import Mathlib

/-!
Verification development for the `vm_settings` diagnostic client
(`src/main.rs`).  The program queries a WMI namespace for the
`Msvm_VirtualSystemSettingData` row of a named VM and marshals thirteen
named attributes into the `HyperVVmSettings` record.

The embedding models the provider (WMI server, row, VARIANT values,
`VarFormat`, `VariantClear`) as explicit data, and the client function
`get_hyperv_vm_settings` as a pure function that returns both the list of
provider calls it performed (the trace) and its `Result`.  The sequencing
of the source is preserved exactly: one `ExecQuery`, one `Next` requesting
one row, then — in declaration order — thirteen `row.Get` calls, thirteen
`VarFormat` calls, thirteen `VariantClear` calls, thirteen
`String::from_utf16` decodes, each followed by the `?` operator, so any
failure returns immediately with the steps performed so far.
-/

namespace VmSettings

/-- The single-quote character, written by code point to keep the file free
of quote literals. -/
def squote : String := String.mk [Char.ofNat 39]

/-- Source: `const VM_SETTINGS_QUERY: &str = "SELECT * FROM Msvm_VirtualSystemSettingData";` -/
def VM_SETTINGS_QUERY : String := "SELECT * FROM Msvm_VirtualSystemSettingData"

/-- Source: `format!("{VM_SETTINGS_QUERY} WHERE ElementName='{}'", vm_name)` —
the key is interpolated into the query text verbatim, with no escaping. -/
def settingsQuery (vm_name : String) : String :=
  VM_SETTINGS_QUERY ++ " WHERE ElementName=" ++ squote ++ vm_name ++ squote

/-- A VARIANT handle.  The client never inspects the value itself — it only
passes it to the provider operations `VarFormat` and `VariantClear` — so a
bare identifier suffices. -/
abbrev Variant := Nat

/-- Outcome of `IWbemClassObject::Get` for one attribute name, as reported
by the provider: the value is present, the name does not exist on the row
(`WBEM_E_NOT_FOUND`), or some other provider failure occurred.  In the
source both failure kinds are error HRESULTs. -/
inductive RawGet where
  | present (v : Variant)
  | absent
  | failed
deriving DecidableEq

/-- A row: one managed object's attribute bag, addressed by name. -/
structure Row where
  get : String → RawGet

/-- Provider behaviour visible to `get_hyperv_vm_settings`:
whether `ExecQuery` succeeds, whether `Next` returns a success HRESULT,
the row it yields (none models zero matching rows), the result of
`VarFormat` at the flags fixed in the source (`none` models a
`DISP_E_TYPEMISMATCH`-style failure: value not renderable as text, wide
text as UTF-16 code units otherwise), and whether `VariantClear`
succeeds. -/
structure WmiServer where
  execOk : Bool
  nextOk : Bool
  row : Option Row
  fmt : Variant → Option (List Nat)
  clearOk : Variant → Bool

/-- One provider call performed by the client, in order. -/
inductive Event where
  | execQuery (q : String)
  | next (n : Nat)
  | get (a : String)
  | varFormat (a : String)
  | variantClear (a : String)
deriving DecidableEq

/-- The error value carried by the propagated `anyhow::Result`.  Each
constructor records which call's `?` fired; `notFound` is the explicit
`anyhow::bail!("Not found")` for a cursor with zero rows. -/
inductive VmsError where
  | coInitFailed
  | coInitSecurityFailed
  | connectFailed
  | execQueryFailed
  | nextFailed
  | notFound
  | getAbsent (a : String)
  | getFailed (a : String)
  | varFormatFailed (a : String)
  | variantClearFailed (a : String)
  | fromUtf16Failed
deriving DecidableEq

/-- The record constructed by `get_hyperv_vm_settings`.  Field text is kept
as the list of Unicode code points produced by `String::from_utf16`. -/
structure HyperVVmSettings where
  virtual_system_identifier : List Nat
  configuration_data_root : List Nat
  configuration_file : List Nat
  firmware_file : List Nat
  firmware_parameters : List Nat
  guest_state_data_root : List Nat
  guest_state_file : List Nat
  guest_state_isolation_enabled : List Nat
  guest_state_isolation_type : List Nat
  is_saved : List Nat
  virtual_system_sub_type : List Nat
  secure_boot_enabled : List Nat
  turn_off_on_guest_restart : List Nat
deriving DecidableEq

/-- The thirteen attribute names fetched by the source, in the exact order
of the `row.Get` calls. -/
def attrNames : List String :=
  ["VirtualSystemIdentifier", "ConfigurationDataRoot", "ConfigurationFile",
   "FirmwareFile", "FirmwareParameters", "GuestStateDataRoot",
   "GuestStateFile", "GuestStateIsolationEnabled", "GuestStateIsolationType",
   "IsSaved", "VirtualSystemSubType", "SecureBootEnabled",
   "TurnOffOnGuestRestart"]

/-- `String::from_utf16`: decode UTF-16 code units to code points, failing
(`none`) on any lone or ill-formed surrogate, as Rust's
`String::from_utf16` does. -/
def fromUtf16 : List Nat → Option (List Nat)
  | [] => some []
  | u :: rest =>
    if u < 0xD800 ∨ 0xE000 ≤ u then
      (fromUtf16 rest).map (fun t => u :: t)
    else if 0xDC00 ≤ u then
      none
    else
      match rest with
      | [] => none
      | low :: rest2 =>
        if 0xDC00 ≤ low ∧ low < 0xE000 then
          (fromUtf16 rest2).map
            (fun t => (0x10000 + (u - 0xD800) * 0x400 + (low - 0xDC00)) :: t)
        else none

/-- The thirteen consecutive `row.Get(...)?` calls: fetch each attribute in
order, stopping at the first failing `?`.  Returns the trace of `Get`
calls made and either the fetched variants or the propagated error. -/
def getPhase (row : Row) : List String → List Event × Except VmsError (List Variant)
  | [] => ([], Except.ok [])
  | a :: rest =>
    match row.get a with
    | RawGet.present v =>
      match getPhase row rest with
      | (tr, Except.ok vs) => (Event.get a :: tr, Except.ok (v :: vs))
      | (tr, Except.error e) => (Event.get a :: tr, Except.error e)
    | RawGet.absent => ([Event.get a], Except.error (VmsError.getAbsent a))
    | RawGet.failed => ([Event.get a], Except.error (VmsError.getFailed a))

/-- The thirteen consecutive `VarFormat(...)?` calls, on the variants just
fetched, stopping at the first failing `?`. -/
def fmtPhase (s : WmiServer) : List (String × Variant) → List Event × Except VmsError (List (List Nat))
  | [] => ([], Except.ok [])
  | (a, v) :: rest =>
    match s.fmt v with
    | some w =>
      match fmtPhase s rest with
      | (tr, Except.ok ws) => (Event.varFormat a :: tr, Except.ok (w :: ws))
      | (tr, Except.error e) => (Event.varFormat a :: tr, Except.error e)
    | none => ([Event.varFormat a], Except.error (VmsError.varFormatFailed a))

/-- The thirteen consecutive `VariantClear(...)?` calls, stopping at the
first failing `?`. -/
def clearPhase (s : WmiServer) : List (String × Variant) → List Event × Except VmsError Unit
  | [] => ([], Except.ok ())
  | (a, v) :: rest =>
    if s.clearOk v then
      match clearPhase s rest with
      | (tr, r) => (Event.variantClear a :: tr, r)
    else ([Event.variantClear a], Except.error (VmsError.variantClearFailed a))

/-- The thirteen consecutive `String::from_utf16(...)?` decodes (pure
client-side code, no provider calls), stopping at the first failure. -/
def decodePhase : List (List Nat) → Except VmsError (List (List Nat))
  | [] => Except.ok []
  | w :: rest =>
    match fromUtf16 w with
    | some t => (decodePhase rest).map (fun ts => t :: ts)
    | none => Except.error VmsError.fromUtf16Failed

/-- Assemble the `HyperVVmSettings` struct literal from the thirteen decoded
field texts, in declaration order. -/
def buildRecord (l : List (List Nat)) : HyperVVmSettings :=
  ⟨l.getD 0 [], l.getD 1 [], l.getD 2 [], l.getD 3 [], l.getD 4 [],
   l.getD 5 [], l.getD 6 [], l.getD 7 [], l.getD 8 [], l.getD 9 [],
   l.getD 10 [], l.getD 11 [], l.getD 12 []⟩

/-- The i-th field of the record, in declaration order. -/
def recField (r : HyperVVmSettings) (i : Nat) : List Nat :=
  [r.virtual_system_identifier, r.configuration_data_root,
   r.configuration_file, r.firmware_file, r.firmware_parameters,
   r.guest_state_data_root, r.guest_state_file,
   r.guest_state_isolation_enabled, r.guest_state_isolation_type,
   r.is_saved, r.virtual_system_sub_type, r.secure_boot_enabled,
   r.turn_off_on_guest_restart].getD i []

/-- The body of `get_hyperv_vm_settings` after `row[0]` matched `Some(row)`:
gets, formats, clears, decodes, then the struct literal, with every `?`
propagating immediately. -/
def afterRow (s : WmiServer) (row : Row) (q : String) : List Event × Except VmsError HyperVVmSettings :=
  match getPhase row attrNames with
  | (tr1, Except.error e) =>
    ([Event.execQuery q, Event.next 1] ++ tr1, Except.error e)
  | (tr1, Except.ok vars) =>
    match fmtPhase s (attrNames.zip vars) with
    | (tr2, Except.error e) =>
      ([Event.execQuery q, Event.next 1] ++ tr1 ++ tr2, Except.error e)
    | (tr2, Except.ok wides) =>
      match clearPhase s (attrNames.zip vars) with
      | (tr3, Except.error e) =>
        ([Event.execQuery q, Event.next 1] ++ tr1 ++ tr2 ++ tr3, Except.error e)
      | (tr3, Except.ok _) =>
        match decodePhase wides with
        | Except.error e =>
          ([Event.execQuery q, Event.next 1] ++ tr1 ++ tr2 ++ tr3, Except.error e)
        | Except.ok ts =>
          ([Event.execQuery q, Event.next 1] ++ tr1 ++ tr2 ++ tr3,
           Except.ok (buildRecord ts))

/-- `get_hyperv_vm_settings`: build the query text, `ExecQuery(...)?`, one
`Next(-1, &mut row, &mut returned).ok()?` on a one-element row buffer, then
either marshal the single row or `anyhow::bail!("Not found")`. -/
def get_hyperv_vm_settings (s : WmiServer) (vm_name : String) : List Event × Except VmsError HyperVVmSettings :=
  if s.execOk then
    if s.nextOk then
      match s.row with
      | some row => afterRow s row (settingsQuery vm_name)
      | none =>
        ([Event.execQuery (settingsQuery vm_name), Event.next 1],
         Except.error VmsError.notFound)
    else
      ([Event.execQuery (settingsQuery vm_name), Event.next 1],
       Except.error VmsError.nextFailed)
  else
    ([Event.execQuery (settingsQuery vm_name)],
     Except.error VmsError.execQueryFailed)

/-- Environment facts consumed by `main` before the query: whether
`CoInitializeEx` and `CoInitializeSecurity` succeed (`init_com`), and the
server handle produced by `connect_hyperv_wmi` (`none` models a failed
`CoCreateInstance`/`ConnectServer`). -/
structure ComWorld where
  coInitOk : Bool
  securityOk : Bool
  connect : Option WmiServer

/-- `main`: `init_com()?`, `connect_hyperv_wmi()?`, then
`get_hyperv_vm_settings(&server, "alpine")?`.  The Rust `main` takes no
parameters and never reads `std::env::args`; the process argument list
`args` is threaded through here only to state that it is ignored. -/
def main (args : List String) (w : ComWorld) : List Event × Except VmsError HyperVVmSettings :=
  if w.coInitOk then
    if w.securityOk then
      match w.connect with
      | some server => get_hyperv_vm_settings server "alpine"
      | none => ([], Except.error VmsError.connectFailed)
    else ([], Except.error VmsError.coInitSecurityFailed)
  else ([], Except.error VmsError.coInitFailed)

/-- Is this event a cursor advance (`Next`)? -/
def isNextEv : Event → Bool
  | Event.next _ => true
  | _ => false

/-- Is this event a query submission (`ExecQuery`)? -/
def isExecEv : Event → Bool
  | Event.execQuery _ => true
  | _ => false

/-- Is this event an attribute fetch (`row.Get`)? -/
def isGetEv : Event → Bool
  | Event.get _ => true
  | _ => false

/-- Is this event a release (`VariantClear`)? -/
def isClearEv : Event → Bool
  | Event.variantClear _ => true
  | _ => false

deriving instance DecidableEq for Except

/-- The UTF-16 code units of the text `True`, a typical formatted value. -/
def trueText : List Nat := [84, 114, 117, 101]

/-- A row on which every attribute is present, all under variant handle 0. -/
def okRow : Row := ⟨fun _ => RawGet.present 0⟩

/-- A row that carries a distinct variant handle per attribute (its index in
the descriptor order). -/
def idxRow : Row := ⟨fun a => RawGet.present (attrNames.indexOf a)⟩

/-- A fully cooperative provider: every call succeeds and every value
formats to the text `True`. -/
def okServer : WmiServer :=
  ⟨true, true, some okRow, fun _ => some trueText, fun _ => true⟩

/-- A row on which the `ConfigurationFile` attribute does not exist. -/
def absentRow : Row :=
  ⟨fun a => if a = "ConfigurationFile" then RawGet.absent else RawGet.present 0⟩

/-- A provider whose single row lacks the `ConfigurationFile` attribute;
everything else succeeds. -/
def absentServer : WmiServer :=
  ⟨true, true, some absentRow, fun _ => some trueText, fun _ => true⟩

/-- A provider on which exactly one attribute value (handle 2, belonging to
`ConfigurationFile` on `idxRow`) is not renderable as text; every other
value formats fine. -/
def mismatchServer : WmiServer :=
  ⟨true, true, some idxRow, fun v => if v = 2 then none else some trueText,
   fun _ => true⟩

/-- A provider on which no value is renderable as text, so the very first
`VarFormat` call fails. -/
def fmtFailServer : WmiServer :=
  ⟨true, true, some okRow, fun _ => none, fun _ => true⟩

/-- A provider whose formatted text is a lone UTF-16 high surrogate —
well-formed as far as the provider is concerned, but malformed wide-string
data for `String::from_utf16`. -/
def surrogateServer : WmiServer :=
  ⟨true, true, some okRow, fun _ => some [0xD800], fun _ => true⟩

/-- A provider whose cursor yields zero rows. -/
def noRowServer : WmiServer :=
  ⟨true, true, none, fun _ => some trueText, fun _ => true⟩

/-- `VARFORMAT_FIRST_DAY_SYSTEMDEFAULT`: the `windows` crate constant is 0,
documented as "use the system default" for the first-day-of-week
convention. -/
def VARFORMAT_FIRST_DAY_SYSTEMDEFAULT : Nat := 0

/-- `VARFORMAT_FIRST_WEEK_SYSTEMDEFAULT`: the `windows` crate constant is 0,
documented as "use the system default" for the first-week-of-year
convention. -/
def VARFORMAT_FIRST_WEEK_SYSTEMDEFAULT : Nat := 0

/-- The `dwflags`-adjacent firstDay argument every `VarFormat` call in the
source passes (lines 252–342): the system-default marker, not a fixed
weekday. -/
def varFormatFirstDayArg : Nat := VARFORMAT_FIRST_DAY_SYSTEMDEFAULT

/-- The firstWeek argument every `VarFormat` call in the source passes. -/
def varFormatFirstWeekArg : Nat := VARFORMAT_FIRST_WEEK_SYSTEMDEFAULT

/-- The caller environment's system locale settings that `VarFormat`
consults when a convention argument is the system-default marker 0
(per the platform contract of `VarFormat`/`VARFORMAT_FIRST_DAY`). -/
structure LocaleEnv where
  systemFirstDay : Nat
  systemFirstWeek : Nat

/-- The first-day convention `VarFormat` actually applies: flag value 0
means "read it from the system locale", any other value is a fixed
weekday. -/
def effectiveFirstDay (flag : Nat) (env : LocaleEnv) : Nat :=
  if flag = 0 then env.systemFirstDay else flag

/-- The first-week convention `VarFormat` actually applies. -/
def effectiveFirstWeek (flag : Nat) (env : LocaleEnv) : Nat :=
  if flag = 0 then env.systemFirstWeek else flag

/-- `VarFormat` as invoked by the source, in environment `env`: its output
depends on the value and on the effective day/week conventions resolved
from the arguments the source passes.  `fmtCore` abstracts the provider's
formatting of a value under given conventions. -/
def varFormatUnderEnv (fmtCore : Nat → Nat → Nat → List Nat) (env : LocaleEnv)
    (v : Nat) : List Nat :=
  fmtCore v (effectiveFirstDay varFormatFirstDayArg env)
    (effectiveFirstWeek varFormatFirstWeekArg env)

/-- A formatting core whose output shows the first-day convention in use —
as a date-of-week rendering would. -/
def exFmtCore : Nat → Nat → Nat → List Nat := fun _ d _ => [d]

/-- Number of single-quote characters in a string. -/
def countQuote (s : String) : Nat :=
  s.data.countP (fun c => decide (c = Char.ofNat 39))

theorem getPhase_trace_get (row : Row) (names : List String) :
    ∀ e ∈ (getPhase row names).1, ∃ a, e = Event.get a := by
  induction names with
  | nil => simp [getPhase]
  | cons a rest ih =>
    cases h : row.get a with
    | present v =>
      rcases hr : getPhase row rest with ⟨tr, r⟩
      cases r <;>
        · simp only [getPhase, h, hr]
          intro e he
          rcases List.mem_cons.mp he with rfl | he
          · exact ⟨a, rfl⟩
          · exact ih e (by rw [hr]; exact he)
    | absent => simp [getPhase, h]
    | failed => simp [getPhase, h]

theorem fmtPhase_trace_fmt (s : WmiServer) (l : List (String × Variant)) :
    ∀ e ∈ (fmtPhase s l).1, ∃ a, e = Event.varFormat a := by
  induction l with
  | nil => simp [fmtPhase]
  | cons p rest ih =>
    rcases p with ⟨a, v⟩
    cases h : s.fmt v with
    | some w =>
      rcases hr : fmtPhase s rest with ⟨tr, r⟩
      cases r <;>
        · simp only [fmtPhase, h, hr]
          intro e he
          rcases List.mem_cons.mp he with rfl | he
          · exact ⟨a, rfl⟩
          · exact ih e (by rw [hr]; exact he)
    | none => simp [fmtPhase, h]

theorem clearPhase_trace_clear (s : WmiServer) (l : List (String × Variant)) :
    ∀ e ∈ (clearPhase s l).1, ∃ a, e = Event.variantClear a := by
  induction l with
  | nil => simp [clearPhase]
  | cons p rest ih =>
    rcases p with ⟨a, v⟩
    by_cases h : s.clearOk v
    · rcases hr : clearPhase s rest with ⟨tr, r⟩
      simp only [clearPhase, h, if_pos, hr]
      intro e he
      rcases List.mem_cons.mp he with rfl | he
      · exact ⟨a, rfl⟩
      · exact ih e (by rw [hr]; exact he)
    · simp [clearPhase, h]

theorem getPhase_ok (row : Row) :
    ∀ (names : List String) (tr : List Event) (vs : List Variant),
      getPhase row names = (tr, Except.ok vs) →
      tr = names.map Event.get ∧ vs.length = names.length ∧
      ∀ i a, names.get? i = some a →
        ∃ v, row.get a = RawGet.present v ∧ vs.get? i = some v := by
  intro names
  induction names with
  | nil =>
    intro tr vs h
    simp only [getPhase, Prod.mk.injEq] at h
    rcases h with ⟨rfl, h2⟩
    cases h2
    simp
  | cons a rest ih =>
    intro tr vs h
    cases hg : row.get a with
    | present v =>
      rcases hr : getPhase row rest with ⟨tr2, r⟩
      cases r with
      | ok vs2 =>
        simp only [getPhase, hg, hr, Prod.mk.injEq] at h
        rcases h with ⟨rfl, h2⟩
        cases h2
        rcases ih tr2 vs2 hr with ⟨htr, hlen, hidx⟩
        refine ⟨by rw [htr]; rfl, by simp [hlen], ?_⟩
        intro i b hib
        cases i with
        | zero =>
          simp only [List.get?] at hib
          cases hib
          exact ⟨v, hg, rfl⟩
        | succ j =>
          simp only [List.get?] at hib
          rcases hidx j b hib with ⟨v2, hv2, hvs2⟩
          exact ⟨v2, hv2, by simpa using hvs2⟩
      | error e =>
        simp only [getPhase, hg, hr, Prod.mk.injEq] at h
        rcases h with ⟨-, h2⟩
        cases h2
    | absent => simp [getPhase, hg] at h
    | failed => simp [getPhase, hg] at h

theorem fmtPhase_ok (s : WmiServer) :
    ∀ (l : List (String × Variant)) (tr : List Event) (ws : List (List Nat)),
      fmtPhase s l = (tr, Except.ok ws) →
      tr = l.map (fun p => Event.varFormat p.1) ∧ ws.length = l.length ∧
      ∀ i a v, l.get? i = some (a, v) →
        ∃ w, s.fmt v = some w ∧ ws.get? i = some w := by
  intro l
  induction l with
  | nil =>
    intro tr ws h
    simp only [fmtPhase, Prod.mk.injEq] at h
    rcases h with ⟨rfl, h2⟩
    cases h2
    simp
  | cons p rest ih =>
    intro tr ws h
    rcases p with ⟨a, v⟩
    cases hf : s.fmt v with
    | some w =>
      rcases hr : fmtPhase s rest with ⟨tr2, r⟩
      cases r with
      | ok ws2 =>
        simp only [fmtPhase, hf, hr, Prod.mk.injEq] at h
        rcases h with ⟨rfl, h2⟩
        cases h2
        rcases ih tr2 ws2 hr with ⟨htr, hlen, hidx⟩
        refine ⟨by rw [htr]; rfl, by simp [hlen], ?_⟩
        intro i b u hib
        cases i with
        | zero =>
          simp only [List.get?] at hib
          cases hib
          exact ⟨w, hf, rfl⟩
        | succ j =>
          simp only [List.get?] at hib
          rcases hidx j b u hib with ⟨w2, hw2, hws2⟩
          exact ⟨w2, hw2, by simpa using hws2⟩
      | error e =>
        simp only [fmtPhase, hf, hr, Prod.mk.injEq] at h
        rcases h with ⟨-, h2⟩
        cases h2
    | none => simp [fmtPhase, hf] at h

theorem clearPhase_ok (s : WmiServer) :
    ∀ (l : List (String × Variant)) (tr : List Event),
      clearPhase s l = (tr, Except.ok ()) →
      tr = l.map (fun p => Event.variantClear p.1) := by
  intro l
  induction l with
  | nil =>
    intro tr h
    simp only [clearPhase, Prod.mk.injEq] at h
    exact h.1.symm
  | cons p rest ih =>
    intro tr h
    rcases p with ⟨a, v⟩
    by_cases hc : s.clearOk v
    · rcases hr : clearPhase s rest with ⟨tr2, r⟩
      simp only [clearPhase, hc, if_pos, hr, Prod.mk.injEq] at h
      rcases h with ⟨rfl, h2⟩
      cases r with
      | ok u => rw [ih tr2 (by rw [hr])]; rfl
      | error e => cases h2
    · simp [clearPhase, hc] at h

theorem decodePhase_ok :
    ∀ (ws : List (List Nat)) (ts : List (List Nat)),
      decodePhase ws = Except.ok ts →
      ts.length = ws.length ∧
      ∀ i w, ws.get? i = some w →
        ∃ t, fromUtf16 w = some t ∧ ts.get? i = some t := by
  intro ws
  induction ws with
  | nil =>
    intro ts h
    simp only [decodePhase] at h
    cases h
    simp
  | cons w rest ih =>
    intro ts h
    cases hd : fromUtf16 w with
    | some t =>
      cases hr : decodePhase rest with
      | ok ts2 =>
        simp only [decodePhase, hd, hr, Except.map] at h
        cases h
        rcases ih ts2 hr with ⟨hlen, hidx⟩
        refine ⟨by simp [hlen], ?_⟩
        intro i u hiu
        cases i with
        | zero =>
          simp only [List.get?] at hiu
          cases hiu
          exact ⟨t, hd, rfl⟩
        | succ j =>
          simp only [List.get?] at hiu
          rcases hidx j u hiu with ⟨t2, ht2, hts2⟩
          exact ⟨t2, ht2, by simpa using hts2⟩
      | error e =>
        simp only [decodePhase, hd, hr, Except.map] at h
        cases h
    | none => simp [decodePhase, hd] at h

theorem getPhase_error_absent (row : Row) :
    ∀ (names : List String),
      (∀ a ∈ names, row.get a ≠ RawGet.failed) →
      (∃ a ∈ names, row.get a = RawGet.absent) →
      ∃ a ∈ names, (getPhase row names).2 = Except.error (VmsError.getAbsent a) := by
  intro names
  induction names with
  | nil =>
    rintro - ⟨a, ha, -⟩
    cases ha
  | cons a rest ih =>
    intro hnf hex
    cases hg : row.get a with
    | present v =>
      have hex2 : ∃ b ∈ rest, row.get b = RawGet.absent := by
        rcases hex with ⟨b, hb, habs⟩
        rcases List.mem_cons.mp hb with rfl | hb2
        · rw [hg] at habs; cases habs
        · exact ⟨b, hb2, habs⟩
      have hnf2 : ∀ b ∈ rest, row.get b ≠ RawGet.failed :=
        fun b hb => hnf b (List.mem_cons_of_mem a hb)
      rcases ih hnf2 hex2 with ⟨b, hb, herr⟩
      refine ⟨b, List.mem_cons_of_mem a hb, ?_⟩
      rcases hr : getPhase row rest with ⟨tr2, r⟩
      rw [hr] at herr
      cases r with
      | ok vs => simp at herr
      | error e =>
        simp only at herr
        simp [getPhase, hg, hr, herr]
    | absent => exact ⟨a, List.mem_cons_self a rest, by simp [getPhase, hg]⟩
    | failed => exact absurd hg (hnf a (List.mem_cons_self a rest))

theorem fmtPhase_error_of_mem (s : WmiServer) :
    ∀ (l : List (String × Variant)),
      (∃ p ∈ l, s.fmt p.2 = none) →
      ∃ a, (fmtPhase s l).2 = Except.error (VmsError.varFormatFailed a) := by
  intro l
  induction l with
  | nil =>
    rintro ⟨p, hp, -⟩
    cases hp
  | cons q rest ih =>
    rcases q with ⟨a, v⟩
    intro hex
    cases hf : s.fmt v with
    | none => exact ⟨a, by simp [fmtPhase, hf]⟩
    | some w =>
      have hex2 : ∃ p ∈ rest, s.fmt p.2 = none := by
        rcases hex with ⟨p, hp, hnone⟩
        rcases List.mem_cons.mp hp with rfl | hp2
        · have hv : s.fmt v = none := hnone
          rw [hf] at hv; cases hv
        · exact ⟨p, hp2, hnone⟩
      rcases ih hex2 with ⟨b, herr⟩
      rcases hr : fmtPhase s rest with ⟨tr2, r⟩
      rw [hr] at herr
      cases r with
      | ok ws => simp at herr
      | error e =>
        simp only at herr
        exact ⟨b, by simp [fmtPhase, hf, hr, herr]⟩

theorem decodePhase_error_of_mem :
    ∀ (ws : List (List Nat)),
      (∃ w ∈ ws, fromUtf16 w = none) →
      decodePhase ws = Except.error VmsError.fromUtf16Failed := by
  intro ws
  induction ws with
  | nil =>
    rintro ⟨w, hw, -⟩
    cases hw
  | cons w rest ih =>
    intro hex
    cases hd : fromUtf16 w with
    | none => simp [decodePhase, hd]
    | some t =>
      have hex2 : ∃ u ∈ rest, fromUtf16 u = none := by
        rcases hex with ⟨u, hu, hnone⟩
        rcases List.mem_cons.mp hu with rfl | hu2
        · rw [hd] at hnone; cases hnone
        · exact ⟨u, hu2, hnone⟩
      simp [decodePhase, hd, ih hex2, Except.map]

theorem settings_ok_inversion (s : WmiServer) (vm : String) (tr : List Event)
    (r : HyperVVmSettings)
    (h : get_hyperv_vm_settings s vm = (tr, Except.ok r)) :
    s.execOk = true ∧ s.nextOk = true ∧
    ∃ row tr1 vars tr2 wides tr3 ts,
      s.row = some row ∧
      getPhase row attrNames = (tr1, Except.ok vars) ∧
      fmtPhase s (attrNames.zip vars) = (tr2, Except.ok wides) ∧
      clearPhase s (attrNames.zip vars) = (tr3, Except.ok ()) ∧
      decodePhase wides = Except.ok ts ∧
      r = buildRecord ts ∧
      tr = [Event.execQuery (settingsQuery vm), Event.next 1] ++ tr1 ++ tr2 ++ tr3 := by
  simp only [get_hyperv_vm_settings] at h
  cases hE : s.execOk with
  | false => rw [hE] at h; simp at h
  | true =>
    rw [hE] at h
    simp only [if_true] at h
    cases hN : s.nextOk with
    | false => rw [hN] at h; simp at h
    | true =>
      rw [hN] at h
      simp only [if_true] at h
      cases hR : s.row with
      | none => rw [hR] at h; simp at h
      | some row =>
        rw [hR] at h
        simp only [afterRow] at h
        rcases h1 : getPhase row attrNames with ⟨tr1, vr⟩
        rw [h1] at h
        cases vr with
        | error e => simp at h
        | ok vars =>
          dsimp only at h
          rcases h2 : fmtPhase s (attrNames.zip vars) with ⟨tr2, fr⟩
          rw [h2] at h
          cases fr with
          | error e => simp at h
          | ok wides =>
            dsimp only at h
            rcases h3 : clearPhase s (attrNames.zip vars) with ⟨tr3, cr⟩
            rw [h3] at h
            cases cr with
            | error e => simp at h
            | ok u =>
              cases u
              dsimp only at h
              cases h4 : decodePhase wides with
              | error e => rw [h4] at h; simp at h
              | ok ts =>
                rw [h4] at h
                simp only [Prod.mk.injEq] at h
                rcases h with ⟨htr, hrec⟩
                refine ⟨rfl, rfl, row, tr1, vars, tr2, wides, tr3, ts,
                  rfl, h1, h2, h3, h4, ?_, ?_⟩
                · cases hrec; rfl
                · rw [← htr]

theorem settings_result_of_getPhase_error (s : WmiServer) (vm : String)
    (row : Row) (tr1 : List Event) (e : VmsError)
    (hE : s.execOk = true) (hN : s.nextOk = true) (hR : s.row = some row)
    (h1 : getPhase row attrNames = (tr1, Except.error e)) :
    (get_hyperv_vm_settings s vm).2 = Except.error e := by
  simp [get_hyperv_vm_settings, hE, hN, hR, afterRow, h1]

theorem settings_result_of_fmtPhase_error (s : WmiServer) (vm : String)
    (row : Row) (tr1 : List Event) (vars : List Variant) (tr2 : List Event)
    (e : VmsError)
    (hE : s.execOk = true) (hN : s.nextOk = true) (hR : s.row = some row)
    (h1 : getPhase row attrNames = (tr1, Except.ok vars))
    (h2 : fmtPhase s (attrNames.zip vars) = (tr2, Except.error e)) :
    (get_hyperv_vm_settings s vm).2 = Except.error e := by
  simp [get_hyperv_vm_settings, hE, hN, hR, afterRow, h1, h2]

theorem settings_result_of_decode_error (s : WmiServer) (vm : String)
    (row : Row) (tr1 : List Event) (vars : List Variant) (tr2 : List Event)
    (wides : List (List Nat)) (tr3 : List Event) (e : VmsError)
    (hE : s.execOk = true) (hN : s.nextOk = true) (hR : s.row = some row)
    (h1 : getPhase row attrNames = (tr1, Except.ok vars))
    (h2 : fmtPhase s (attrNames.zip vars) = (tr2, Except.ok wides))
    (h3 : clearPhase s (attrNames.zip vars) = (tr3, Except.ok ()))
    (h4 : decodePhase wides = Except.error e) :
    (get_hyperv_vm_settings s vm).2 = Except.error e := by
  simp [get_hyperv_vm_settings, hE, hN, hR, afterRow, h1, h2, h3, h4]

theorem settings_trace_shape (s : WmiServer) (vm : String) :
    (get_hyperv_vm_settings s vm).1 = [Event.execQuery (settingsQuery vm)] ∨
    ∃ rest, (get_hyperv_vm_settings s vm).1 =
      [Event.execQuery (settingsQuery vm), Event.next 1] ++ rest ∧
      ∀ e ∈ rest, isNextEv e = false ∧ isExecEv e = false := by
  cases hE : s.execOk with
  | false => left; simp [get_hyperv_vm_settings, hE]
  | true =>
    right
    cases hN : s.nextOk with
    | false => exact ⟨[], by simp [get_hyperv_vm_settings, hE, hN]⟩
    | true =>
      cases hR : s.row with
      | none => exact ⟨[], by simp [get_hyperv_vm_settings, hE, hN, hR]⟩
      | some row =>
        have hga := getPhase_trace_get row attrNames
        rcases h1 : getPhase row attrNames with ⟨tr1, vr⟩
        rw [h1] at hga
        have htr1 : ∀ e ∈ tr1, isNextEv e = false ∧ isExecEv e = false := by
          intro e he
          rcases hga e he with ⟨a, rfl⟩
          exact ⟨rfl, rfl⟩
        cases vr with
        | error e =>
          refine ⟨tr1, ?_, htr1⟩
          simp [get_hyperv_vm_settings, hE, hN, hR, afterRow, h1]
        | ok vars =>
          have hfa := fmtPhase_trace_fmt s (attrNames.zip vars)
          rcases h2 : fmtPhase s (attrNames.zip vars) with ⟨tr2, fr⟩
          rw [h2] at hfa
          have htr2 : ∀ e ∈ tr2, isNextEv e = false ∧ isExecEv e = false := by
            intro e he
            rcases hfa e he with ⟨a, rfl⟩
            exact ⟨rfl, rfl⟩
          cases fr with
          | error e =>
            refine ⟨tr1 ++ tr2, ?_, ?_⟩
            · simp [get_hyperv_vm_settings, hE, hN, hR, afterRow, h1, h2]
            · intro e he
              rcases List.mem_append.mp he with he | he
              · exact htr1 e he
              · exact htr2 e he
          | ok wides =>
            have hca := clearPhase_trace_clear s (attrNames.zip vars)
            rcases h3 : clearPhase s (attrNames.zip vars) with ⟨tr3, cr⟩
            rw [h3] at hca
            have htr3 : ∀ e ∈ tr3, isNextEv e = false ∧ isExecEv e = false := by
              intro e he
              rcases hca e he with ⟨a, rfl⟩
              exact ⟨rfl, rfl⟩
            have hrest : ∀ e ∈ tr1 ++ tr2 ++ tr3, isNextEv e = false ∧ isExecEv e = false := by
              intro e he
              rcases List.mem_append.mp he with he | he
              · rcases List.mem_append.mp he with he | he
                · exact htr1 e he
                · exact htr2 e he
              · exact htr3 e he
            cases cr with
            | error e =>
              refine ⟨tr1 ++ tr2 ++ tr3, ?_, hrest⟩
              simp [get_hyperv_vm_settings, hE, hN, hR, afterRow, h1, h2, h3]
            | ok u =>
              cases u
              cases h4 : decodePhase wides with
              | error e =>
                refine ⟨tr1 ++ tr2 ++ tr3, ?_, hrest⟩
                simp [get_hyperv_vm_settings, hE, hN, hR, afterRow, h1, h2, h3, h4]
              | ok ts =>
                refine ⟨tr1 ++ tr2 ++ tr3, ?_, hrest⟩
                simp [get_hyperv_vm_settings, hE, hN, hR, afterRow, h1, h2, h3, h4]

theorem zip_get? {α β : Type} :
    ∀ (l1 : List α) (l2 : List β) (i : Nat) (a : α) (b : β),
      l1.get? i = some a → l2.get? i = some b →
      (l1.zip l2).get? i = some (a, b) := by
  intro l1
  induction l1 with
  | nil => intro l2 i a b h1 h2; simp at h1
  | cons x xs ih =>
    intro l2 i a b h1 h2
    cases l2 with
    | nil => simp at h2
    | cons y ys =>
      cases i with
      | zero =>
        simp only [List.get?] at h1 h2
        cases h1
        cases h2
        rfl
      | succ j =>
        simp only [List.get?] at h1 h2
        exact ih ys j a b h1 h2

/-- C4: if the cursor yields zero rows, `get_hyperv_vm_settings` fails with
the distinct record-not-found error (the explicit
`anyhow::bail!("Not found")`), not with any attribute-level error and not
with a record of defaults. -/
theorem c4_zero_rows_not_found (s : WmiServer) (vm : String)
    (hE : s.execOk = true) (hN : s.nextOk = true) (hR : s.row = none) :
    (get_hyperv_vm_settings s vm).2 = Except.error VmsError.notFound := by
  simp [get_hyperv_vm_settings, hE, hN, hR]

/-- C4 witness: a provider whose cursor yields zero rows makes
`get_hyperv_vm_settings` fail with the record-not-found error. -/
theorem c4_zero_rows_not_found_witness :
    (get_hyperv_vm_settings noRowServer "alpine").2 =
      Except.error VmsError.notFound :=
  c4_zero_rows_not_found noRowServer "alpine" rfl rfl rfl

/-- C6: for every provider and key, the result cursor is advanced at most
once — the trace contains at most one `Next` event, and if one occurs it
requests exactly one row. -/
theorem c6_cursor_advanced_at_most_once (s : WmiServer) (vm : String) :
    (get_hyperv_vm_settings s vm).1.filter isNextEv = [] ∨
    (get_hyperv_vm_settings s vm).1.filter isNextEv = [Event.next 1] := by
  rcases settings_trace_shape s vm with h | ⟨rest, h, hrest⟩
  · left
    rw [h]
    rfl
  · right
    rw [h]
    have hnil : rest.filter isNextEv = [] :=
      List.filter_eq_nil.mpr (fun e he => by simp [(hrest e he).1])
    simp [List.filter_append, hnil, isNextEv]

/-- C8 counterexample: the source passes the system-default day/week
markers to `VarFormat`, so the convention actually applied follows the
environment: two environments whose system settings differ produce
different display text for the same value under a date-like formatting
core. -/
theorem c8_counterexample :
    varFormatUnderEnv exFmtCore ⟨1, 1⟩ 0 ≠ varFormatUnderEnv exFmtCore ⟨2, 2⟩ 0 := by
  decide

/-- C8 (amended): every `VarFormat` call in the source passes
`VARFORMAT_FIRST_DAY_SYSTEMDEFAULT` and
`VARFORMAT_FIRST_WEEK_SYSTEMDEFAULT` (both 0, meaning "use the system
default"), so the day/week conventions applied are the caller
environment's system settings — locale-dependent, not fixed; the output is
deterministic only within one environment. -/
theorem c8_conventions_follow_system (env : LocaleEnv) :
    varFormatFirstDayArg = VARFORMAT_FIRST_DAY_SYSTEMDEFAULT ∧
    varFormatFirstWeekArg = VARFORMAT_FIRST_WEEK_SYSTEMDEFAULT ∧
    effectiveFirstDay varFormatFirstDayArg env = env.systemFirstDay ∧
    effectiveFirstWeek varFormatFirstWeekArg env = env.systemFirstWeek := by
  refine ⟨rfl, rfl, ?_, ?_⟩ <;> rfl

/-- C9: for every key, the submitted query text is exactly the fixed
record-class template `SELECT * FROM Msvm_VirtualSystemSettingData`
followed by ` WHERE ElementName=`, a single quote, the key verbatim, and a
closing single quote; the key is interpolated unescaped, so each quote
character in the key lands in the query and changes its quote structure
(the query holds exactly two quotes more than the key). -/
theorem c9_query_text (vm_name : String) :
    settingsQuery vm_name =
      "SELECT * FROM Msvm_VirtualSystemSettingData WHERE ElementName=" ++
        squote ++ vm_name ++ squote ∧
    countQuote (settingsQuery vm_name) = countQuote vm_name + 2 := by
  have happ : ∀ s t : String, countQuote (s ++ t) = countQuote s + countQuote t := by
    intro s t
    simp [countQuote, String.data_append, List.countP_append]
  constructor
  · rfl
  · show countQuote (VM_SETTINGS_QUERY ++ " WHERE ElementName=" ++ squote ++ vm_name ++ squote) = _
    rw [happ, happ, happ, happ]
    have h1 : countQuote VM_SETTINGS_QUERY = 0 := by decide
    have h2 : countQuote " WHERE ElementName=" = 0 := by decide
    have h3 : countQuote squote = 1 := by decide
    rw [h1, h2, h3]
    omega

/-- C10: the program's behaviour is independent of its command-line
arguments — `main` never reads them — and whenever a query is submitted at
all, its text is the one built from the constant key `alpine`. -/
theorem c10_args_ignored (args1 args2 : List String) (w : ComWorld) :
    main args1 w = main args2 w ∧
    ((main args1 w).1.filter isExecEv = [] ∨
     (main args1 w).1.filter isExecEv =
       [Event.execQuery (settingsQuery "alpine")]) := by
  refine ⟨rfl, ?_⟩
  cases hI : w.coInitOk with
  | false => left; simp [main, hI]
  | true =>
    cases hS : w.securityOk with
    | false => left; simp [main, hI, hS]
    | true =>
      cases hC : w.connect with
      | none => left; simp [main, hI, hS, hC]
      | some server =>
        have hm : main args1 w = get_hyperv_vm_settings server "alpine" := by
          simp [main, hI, hS, hC]
        rw [hm]
        rcases settings_trace_shape server "alpine" with h | ⟨rest, h, hrest⟩
        · right
          rw [h]
          rfl
        · right
          rw [h]
          have hnil : rest.filter isExecEv = [] :=
            List.filter_eq_nil.mpr (fun e he => by simp [(hrest e he).2])
          simp [List.filter_append, hnil, isExecEv]

/-- C1 counterexample: on a provider whose row lacks the
`ConfigurationFile` attribute (all other attributes present and
renderable), record construction does not succeed — the function returns
the propagated fetch error, so an absent attribute does abort the whole
record, contrary to the claim. -/
theorem c1_counterexample :
    absentRow.get "ConfigurationFile" = RawGet.absent ∧
    (get_hyperv_vm_settings absentServer "alpine").2 =
      Except.error (VmsError.getAbsent "ConfigurationFile") := by
  constructor
  · decide
  · decide

/-- C1 (amended): if the provider reports some attribute of the row as
absent (and no fetch fails for another reason), `get_hyperv_vm_settings`
aborts the whole record construction, propagating the absent-attribute
fetch error; no field receives a default. -/
theorem c1_absent_aborts_record (s : WmiServer) (vm : String) (row : Row)
    (hE : s.execOk = true) (hN : s.nextOk = true) (hR : s.row = some row)
    (hnf : ∀ a ∈ attrNames, row.get a ≠ RawGet.failed)
    (habs : ∃ a ∈ attrNames, row.get a = RawGet.absent) :
    ∃ a ∈ attrNames,
      (get_hyperv_vm_settings s vm).2 = Except.error (VmsError.getAbsent a) := by
  rcases getPhase_error_absent row attrNames hnf habs with ⟨a, ha, herr⟩
  rcases h1 : getPhase row attrNames with ⟨tr1, r⟩
  rw [h1] at herr
  cases r with
  | ok vs => simp at herr
  | error e =>
    have he : e = VmsError.getAbsent a := Except.error.inj herr
    subst he
    exact ⟨a, ha, settings_result_of_getPhase_error s vm row tr1 _ hE hN hR h1⟩

/-- C1 witness: the amended statement applied to the concrete provider
whose row lacks `ConfigurationFile`. -/
theorem c1_absent_aborts_record_witness :
    ∃ a ∈ attrNames,
      (get_hyperv_vm_settings absentServer "alpine").2 =
        Except.error (VmsError.getAbsent a) :=
  c1_absent_aborts_record absentServer "alpine" absentRow rfl rfl rfl
    (by decide) ⟨"ConfigurationFile", by decide, by decide⟩

/-- C2 counterexample: on a provider where exactly one attribute value
(`ConfigurationFile`, variant handle 2) is not renderable as text while
every other value formats fine, record construction does not succeed — the
conversion error is propagated, so a type mismatch does not default the
one field but aborts the record, contrary to the claim. -/
theorem c2_counterexample :
    idxRow.get "ConfigurationFile" = RawGet.present 2 ∧
    mismatchServer.fmt 2 = none ∧
    mismatchServer.fmt 0 = some trueText ∧
    (get_hyperv_vm_settings mismatchServer "alpine").2 =
      Except.error (VmsError.varFormatFailed "ConfigurationFile") := by
  refine ⟨by decide, by decide, by decide, by decide⟩

/-- C2 (amended): if every attribute fetch succeeds but some fetched value
is not renderable as text, `get_hyperv_vm_settings` aborts the whole
record construction, propagating the conversion error; the outcome is
handled like an absent attribute only in that both abort the record. -/
theorem c2_type_mismatch_aborts_record (s : WmiServer) (vm : String)
    (row : Row) (tr1 : List Event) (vars : List Variant)
    (hE : s.execOk = true) (hN : s.nextOk = true) (hR : s.row = some row)
    (h1 : getPhase row attrNames = (tr1, Except.ok vars))
    (hmm : ∃ p ∈ attrNames.zip vars, s.fmt p.2 = none) :
    ∃ a, (get_hyperv_vm_settings s vm).2 =
      Except.error (VmsError.varFormatFailed a) := by
  rcases fmtPhase_error_of_mem s (attrNames.zip vars) hmm with ⟨b, herr⟩
  rcases h2 : fmtPhase s (attrNames.zip vars) with ⟨tr2, r⟩
  rw [h2] at herr
  cases r with
  | ok ws => simp at herr
  | error e =>
    have he : e = VmsError.varFormatFailed b := Except.error.inj herr
    subst he
    exact ⟨b, settings_result_of_fmtPhase_error s vm row tr1 vars tr2 _
      hE hN hR h1 h2⟩

/-- C2 witness: the amended statement applied to the concrete provider on
which only the `ConfigurationFile` value is unrenderable. -/
theorem c2_type_mismatch_aborts_record_witness :
    ∃ a, (get_hyperv_vm_settings mismatchServer "alpine").2 =
      Except.error (VmsError.varFormatFailed a) :=
  c2_type_mismatch_aborts_record mismatchServer "alpine" idxRow
    (attrNames.map Event.get) [0, 1, 2, 3, 4, 5, 6, 7, 8, 9, 10, 11, 12]
    rfl rfl rfl (by decide) ⟨("ConfigurationFile", 2), by decide, by decide⟩

/-- C7: if every provider fetch, conversion and release succeeded but the
UTF-16 decoding of some converted text fails (malformed wide-character
data), `get_hyperv_vm_settings` aborts the whole record construction with
the propagated decoding error and returns no record. -/
theorem c7_decode_failure_fatal (s : WmiServer) (vm : String)
    (row : Row) (tr1 tr2 tr3 : List Event) (vars : List Variant)
    (wides : List (List Nat))
    (hE : s.execOk = true) (hN : s.nextOk = true) (hR : s.row = some row)
    (h1 : getPhase row attrNames = (tr1, Except.ok vars))
    (h2 : fmtPhase s (attrNames.zip vars) = (tr2, Except.ok wides))
    (h3 : clearPhase s (attrNames.zip vars) = (tr3, Except.ok ()))
    (hbad : ∃ w ∈ wides, fromUtf16 w = none) :
    (get_hyperv_vm_settings s vm).2 = Except.error VmsError.fromUtf16Failed := by
  exact settings_result_of_decode_error s vm row tr1 vars tr2 wides tr3 _
    hE hN hR h1 h2 h3 (decodePhase_error_of_mem wides hbad)

/-- C7 witness: on the provider whose formatted text is a lone UTF-16 high
surrogate, the whole record construction fails with the decoding error. -/
theorem c7_decode_failure_fatal_witness :
    (get_hyperv_vm_settings surrogateServer "alpine").2 =
      Except.error VmsError.fromUtf16Failed :=
  c7_decode_failure_fatal surrogateServer "alpine" okRow
    (attrNames.map Event.get)
    ((attrNames.zip (List.replicate 13 0)).map (fun p => Event.varFormat p.1))
    ((attrNames.zip (List.replicate 13 0)).map (fun p => Event.variantClear p.1))
    (List.replicate 13 0) (List.replicate 13 [0xD800])
    rfl rfl rfl (by decide) (by decide) (by decide)
    ⟨[0xD800], by decide, by decide⟩

/-- C3 counterexample: on a provider where the very first conversion fails,
the function returns after fetching all thirteen attribute values without
performing a single `VariantClear` — the release is not performed on every
outcome branch, contrary to the claim. -/
theorem c3_counterexample :
    (get_hyperv_vm_settings fmtFailServer "alpine").1.countP isGetEv = 13 ∧
    (get_hyperv_vm_settings fmtFailServer "alpine").1.countP isClearEv = 0 ∧
    (get_hyperv_vm_settings fmtFailServer "alpine").2 =
      Except.error (VmsError.varFormatFailed "VirtualSystemIdentifier") := by
  refine ⟨by decide, by decide, by decide⟩

/-- C3 (amended): on the successful path every fetched Attribute Value is
released exactly once before the function returns — the trace holds
exactly one `Get` and exactly one `VariantClear` per descriptor, in
declaration order; but on a branch where a conversion (`VarFormat`) fails,
the function returns early and none of the fetched values is released. -/
theorem c3_release_exactly_once_on_success (s : WmiServer) (vm : String)
    (tr : List Event) (r : HyperVVmSettings)
    (h : get_hyperv_vm_settings s vm = (tr, Except.ok r)) :
    tr.filter isGetEv = attrNames.map Event.get ∧
    tr.filter isClearEv = attrNames.map Event.variantClear := by
  rcases settings_ok_inversion s vm tr r h with
    ⟨hE, hN, row, tr1, vars, tr2, wides, tr3, ts, hR, h1, h2, h3, h4, hrec, htr⟩
  rcases getPhase_ok row attrNames tr1 vars h1 with ⟨htr1, hlen, -⟩
  rcases fmtPhase_ok s (attrNames.zip vars) tr2 wides h2 with ⟨htr2, -, -⟩
  have htr3 := clearPhase_ok s (attrNames.zip vars) tr3 h3
  have hzip : (attrNames.zip vars).map Prod.fst = attrNames :=
    List.map_fst_zip _ _ (le_of_eq hlen.symm)
  have hclear : tr3 = attrNames.map Event.variantClear := by
    rw [htr3, show (fun p : String × Variant => Event.variantClear p.1) =
      Event.variantClear ∘ Prod.fst from rfl, ← List.map_map, hzip]
  subst htr htr1 hclear
  have hgets : (attrNames.map Event.get).filter isGetEv = attrNames.map Event.get :=
    List.filter_eq_self.mpr (by
      intro e he
      rcases List.mem_map.mp he with ⟨a, -, rfl⟩
      rfl)
  have hclears : (attrNames.map Event.variantClear).filter isClearEv =
      attrNames.map Event.variantClear :=
    List.filter_eq_self.mpr (by
      intro e he
      rcases List.mem_map.mp he with ⟨a, -, rfl⟩
      rfl)
  have hfmtg : tr2.filter isGetEv = [] := by
    rw [htr2]
    exact List.filter_eq_nil_iff.mpr (by
      intro e he
      rcases List.mem_map.mp he with ⟨p, -, rfl⟩
      simp [isGetEv])
  have hfmtc : tr2.filter isClearEv = [] := by
    rw [htr2]
    exact List.filter_eq_nil_iff.mpr (by
      intro e he
      rcases List.mem_map.mp he with ⟨p, -, rfl⟩
      simp [isClearEv])
  have hgetc : (attrNames.map Event.get).filter isClearEv = [] :=
    List.filter_eq_nil_iff.mpr (by
      intro e he
      rcases List.mem_map.mp he with ⟨a, -, rfl⟩
      simp [isClearEv])
  have hclearg : (attrNames.map Event.variantClear).filter isGetEv = [] :=
    List.filter_eq_nil_iff.mpr (by
      intro e he
      rcases List.mem_map.mp he with ⟨a, -, rfl⟩
      simp [isGetEv])
  constructor
  · simp [List.filter_append, hgets, hfmtg, hclearg, isGetEv]
  · simp [List.filter_append, hclears, hfmtc, hgetc, isClearEv]

/-- C3 witness: the amended statement applied to the fully cooperative
provider, on which the build succeeds. -/
theorem c3_release_exactly_once_on_success_witness :
    (get_hyperv_vm_settings okServer "alpine").1.filter isGetEv =
      attrNames.map Event.get ∧
    (get_hyperv_vm_settings okServer "alpine").1.filter isClearEv =
      attrNames.map Event.variantClear :=
  c3_release_exactly_once_on_success okServer "alpine"
    (get_hyperv_vm_settings okServer "alpine").1
    (buildRecord (List.replicate 13 trueText)) (by decide)

/-- C5: whenever the build succeeds, every field of the returned record is
byte-for-byte the UTF-16 decoding of the provider's formatted text for the
value the row holds under that field's attribute name. -/
theorem c5_field_text_byte_for_byte (s : WmiServer) (vm : String)
    (row : Row) (tr : List Event) (r : HyperVVmSettings)
    (i : Nat) (a : String) (v : Variant) (w t : List Nat)
    (hrow : s.row = some row)
    (h : get_hyperv_vm_settings s vm = (tr, Except.ok r))
    (ha : attrNames.get? i = some a)
    (hv : row.get a = RawGet.present v)
    (hw : s.fmt v = some w)
    (ht : fromUtf16 w = some t) :
    recField r i = t := by
  rcases settings_ok_inversion s vm tr r h with
    ⟨hE, hN, row2, tr1, vars, tr2, wides, tr3, ts, hR, h1, h2, h3, h4, hrec, htr⟩
  rw [hrow] at hR
  have hrow2 : row = row2 := Option.some.inj hR
  subst hrow2
  rcases getPhase_ok row attrNames tr1 vars h1 with ⟨-, hlen, hidx⟩
  rcases hidx i a ha with ⟨v2, hv2, hvari⟩
  rw [hv] at hv2
  have hvv : v = v2 := RawGet.present.inj hv2
  subst hvv
  have hzipi : (attrNames.zip vars).get? i = some (a, v) :=
    zip_get? attrNames vars i a v ha hvari
  rcases fmtPhase_ok s (attrNames.zip vars) tr2 wides h2 with ⟨-, -, hfidx⟩
  rcases hfidx i a v hzipi with ⟨w2, hw2, hwi⟩
  rw [hw] at hw2
  have hww : w = w2 := Option.some.inj hw2
  subst hww
  rcases decodePhase_ok wides ts h4 with ⟨-, hdidx⟩
  rcases hdidx i w hwi with ⟨t2, ht2, hti⟩
  rw [ht] at ht2
  have htt : t = t2 := Option.some.inj ht2
  subst htt
  have hi : i < attrNames.length := by
    rcases List.get?_eq_some.mp ha with ⟨hb, -⟩
    exact hb
  have hi13 : i < 13 := by simpa [attrNames] using hi
  subst hrec
  have hgetd : ts.getD i [] = t := by
    rw [List.getD_eq_getD_get?, hti]
    rfl
  interval_cases i <;> simpa [recField, buildRecord] using hgetd

/-- C5 witness: on the fully cooperative provider, the
`SecureBootEnabled` field (descriptor index 11) of the returned record is
exactly the decoding of the provider's formatted text `True`. -/
theorem c5_field_text_byte_for_byte_witness :
    recField (buildRecord (List.replicate 13 trueText)) 11 = trueText :=
  c5_field_text_byte_for_byte okServer "alpine" okRow
    (get_hyperv_vm_settings okServer "alpine").1
    (buildRecord (List.replicate 13 trueText)) 11 "SecureBootEnabled" 0
    trueText trueText rfl (by decide) (by decide) (by decide) (by decide)
    (by decide)

end VmSettings
